import Mathlib

/-!
# NovusEdge position-accounting and portfolio-construction engine: verification

Shallow embedding of the core of the NovusEdge repository:

* `PortfolioRepository.create_or_update_asset`
  (software/database/repositories/portfolio.py) — the Position Ledger;
* `handle_create_transaction` (software/database/services/create.py) — the
  live buy/sell service path dispatched by core.py;
* `handle_delete_shareholder_v2` (software/database/services/delete.py) — the
  Withdrawal Planner;
* `BearhouseCapitalFeeCalculator.calculate_management_fee`
  (software/icarus/analysis/finance.py);
* `BaseRepository.update` value coercion
  (software/database/repositories/base.py);
* `PortfolioGenerator.generate_portfolios` / `_create_portfolio`
  (software/icarus/analysis/portfolio/generator.py).

Python's `decimal.Decimal` is embedded as `ℚ` (exact rational arithmetic;
the 28-significant-digit context rounding of Decimal division is abstracted
to exact division). Binary `float` coercion — where the code genuinely
performs it — is modelled explicitly by `floatRound` (IEEE binary64
round-to-nearest-even in the normal range).
-/

namespace NovusEdge

/-- ASCII upper-casing of one character, the effect of Python's `str.upper`
on the ticker strings this system handles. -/
def upChar (c : Char) : Char :=
  if 'a' ≤ c ∧ c ≤ 'z' then Char.ofNat (c.toNat - 32) else c

/-- ASCII lower-casing of one character, the effect of Python's `str.lower`
on the transaction-type strings this system handles. -/
def lowChar (c : Char) : Char :=
  if 'A' ≤ c ∧ c ≤ 'Z' then Char.ofNat (c.toNat + 32) else c

/-- Python `s.upper()` (ASCII range, which covers tickers). -/
def pyUpper (s : String) : String := ⟨s.data.map upChar⟩

/-- Python `s.lower()` (ASCII range, which covers transaction types). -/
def pyLower (s : String) : String := ⟨s.data.map lowChar⟩

/-- One row of the `portfolio` table (`PortfolioModel`, software/database/models.py),
restricted to the fields the ledger logic reads or writes. `current_price` is
`Option ℚ` because the column is nullable. -/
structure Asset where
  ticker : String
  total_shares : ℚ
  total_invested : ℚ
  average_purchase_price : ℚ
  current_price : Option ℚ
  realized_profit_loss : ℚ
deriving DecidableEq, Repr

/-- `PortfolioRepository.create_or_update_asset`
(software/database/repositories/portfolio.py, lines 18–123) as a pure function
from the looked-up row (`existing`, the result of `get_entity(ticker=ticker.upper())`)
to the created/updated row; `none` is the `return False` outcome.
The Python code takes `abs(shares)`, decides buy/sell solely from
`transaction_type.lower() == 'buy'`, rejects a sell that would drive
`total_shares` negative, and on a sell of a zero-share position raises
(Decimal division by zero) which its `except` turns into `False`. -/
def createOrUpdateAsset (existing : Option Asset) (ticker : String)
    (shares : ℚ) (price_per_share : ℚ) (transaction_type : String) : Option Asset :=
  let tickerU := pyUpper ticker
  let shares_decimal : ℚ := |shares|
  let transaction_value := shares_decimal * price_per_share
  let is_buy := pyLower transaction_type == "buy"
  let actual_shares := if is_buy then shares_decimal else -shares_decimal
  match existing with
  | none =>
      if is_buy then
        some { ticker := tickerU
               total_shares := actual_shares
               total_invested := transaction_value
               average_purchase_price := price_per_share
               current_price := some price_per_share
               realized_profit_loss := 0 }
      else
        none
  | some asset =>
      let new_shares := asset.total_shares + actual_shares
      if new_shares < 0 then none
      else if is_buy then
        let new_total_invested := asset.total_invested + transaction_value
        let new_average_price :=
          if new_shares > 0 then new_total_invested / new_shares
          else asset.average_purchase_price
        some { asset with
                 total_shares := new_shares
                 total_invested := new_total_invested
                 average_purchase_price := new_average_price
                 current_price := some price_per_share }
      else
        if asset.total_shares = 0 then none
        else
          let cost_basis := asset.average_purchase_price
          let portion_sold := shares_decimal / asset.total_shares
          let realized := (price_per_share - cost_basis) * shares_decimal
          let investment_reduction := asset.total_invested * portion_sold
          some { asset with
                   total_shares := new_shares
                   total_invested := asset.total_invested - investment_reduction
                   realized_profit_loss := asset.realized_profit_loss + realized
                   current_price := some price_per_share }

theorem pyLower_sell_ne_buy : (pyLower "sell" == "buy") = false := by decide

theorem pyLower_buy_is_buy : (pyLower "buy" == "buy") = true := by decide

theorem pyUpper_AAPL : pyUpper "AAPL" = "AAPL" := by decide

/-- The §8 scenario: a buy of 10 shares at 20 into an empty position followed
by a sell of 4 shares at 25, both through `create_or_update_asset`. -/
def buyTenSellFour : Option Asset :=
  (createOrUpdateAsset none "AAPL" 10 20 "buy").bind
    (fun a => createOrUpdateAsset (some a) "AAPL" 4 25 "sell")

/-- C1: selling `s ≤ total_shares` shares at price `p` from an existing
position adds `(p − average_purchase_price) × s` to `realized_profit_loss`,
reduces `total_invested` by the proportional share
`total_invested × s / total_shares`, and reduces `total_shares` by `s`;
in particular buy 10@20 then sell 4@25 yields
`realized_profit_loss = 20`, `total_shares = 6`, `total_invested = 120`. -/
theorem sell_updates_position_proportionally (a : Asset) (s p : ℚ)
    (hs : 0 < s) (hle : s ≤ a.total_shares) :
    (∃ a', createOrUpdateAsset (some a) a.ticker s p "sell" = some a' ∧
        a'.realized_profit_loss
          = a.realized_profit_loss + (p - a.average_purchase_price) * s ∧
        a'.total_invested
          = a.total_invested - a.total_invested * s / a.total_shares ∧
        a'.total_shares = a.total_shares - s) ∧
    buyTenSellFour =
      some { ticker := "AAPL", total_shares := 6, total_invested := 120,
             average_purchase_price := 20, current_price := some 25,
             realized_profit_loss := 20 } := by
  have htot : 0 < a.total_shares := lt_of_lt_of_le hs hle
  constructor
  · have hrun : createOrUpdateAsset (some a) a.ticker s p "sell" =
        some { a with
                 total_shares := a.total_shares + -s
                 total_invested := a.total_invested
                   - a.total_invested * (s / a.total_shares)
                 realized_profit_loss := a.realized_profit_loss
                   + (p - a.average_purchase_price) * s
                 current_price := some p } := by
      simp only [createOrUpdateAsset, pyLower_sell_ne_buy, Bool.false_eq_true,
        if_false, abs_of_pos hs]
      rw [if_neg (by linarith), if_neg (by exact ne_of_gt htot)]
    refine ⟨_, hrun, by simp, by simp [mul_div_assoc], by
      simp [sub_eq_add_neg]⟩
  · show (createOrUpdateAsset none "AAPL" 10 20 "buy").bind
        (fun a => createOrUpdateAsset (some a) "AAPL" 4 25 "sell") = _
    rw [show createOrUpdateAsset none "AAPL" 10 20 "buy"
          = some { ticker := "AAPL", total_shares := 10, total_invested := 200,
                   average_purchase_price := 20, current_price := some 20,
                   realized_profit_loss := 0 } from by
      simp only [createOrUpdateAsset, pyLower_buy_is_buy, pyUpper_AAPL, if_true]
      norm_num]
    simp only [Option.bind_some, createOrUpdateAsset, pyLower_sell_ne_buy,
      Bool.false_eq_true, if_false]
    norm_num

/-- Witness for `sell_updates_position_proportionally` at the §8 numbers. -/
theorem sell_updates_position_proportionally_witness :
    ∃ a', createOrUpdateAsset
        (some { ticker := "AAPL", total_shares := 10, total_invested := 200,
                average_purchase_price := 20, current_price := some 20,
                realized_profit_loss := 0 }) "AAPL" 4 25 "sell" = some a' ∧
      a'.realized_profit_loss = 0 + (25 - 20) * 4 ∧
      a'.total_invested = 200 - 200 * 4 / 10 ∧
      a'.total_shares = 10 - 4 :=
  (sell_updates_position_proportionally
    { ticker := "AAPL", total_shares := 10, total_invested := 200,
      average_purchase_price := 20, current_price := some 20,
      realized_profit_loss := 0 } 4 25 (by norm_num) (by norm_num)).1

/-- C10: `create_or_update_asset` ignores the sign of `shares` for EVERY
ticker, price, transaction type and share count (it takes `abs(shares)` up
front, so `−s` and `s` produce the same result on buys as well as sells),
and the buy/sell direction comes solely from `transaction_type`: any type
whose lower-casing is not `"buy"` is processed exactly as a sell. The
Withdrawal Planner's liquidation loop relies on this when it passes negated
share counts with type `'sell'`. -/
theorem asset_update_ignores_share_sign (existing : Option Asset)
    (ticker : String) (s p : ℚ) (t : String) :
    createOrUpdateAsset existing ticker (-s) p t
      = createOrUpdateAsset existing ticker s p t ∧
    (pyLower t ≠ "buy" →
      createOrUpdateAsset existing ticker s p t
        = createOrUpdateAsset existing ticker s p "sell") := by
  constructor
  · simp [createOrUpdateAsset]
  · intro ht
    have ht' : (pyLower t == "buy") = false := by
      simpa using ht
    simp [createOrUpdateAsset, ht', pyLower_sell_ne_buy]

/-- Witness for `asset_update_ignores_share_sign`: a buy-typed call with
negated shares behaves as the positive-share buy, and a liquidation-style
call with negated shares and upper-case type `'SELL'` is the plain sell. -/
theorem asset_update_ignores_share_sign_witness :
    createOrUpdateAsset none "msft" (-3) 5 "buy"
        = createOrUpdateAsset none "msft" 3 5 "buy" ∧
    createOrUpdateAsset none "msft" (-3) 5 "SELL"
        = createOrUpdateAsset none "msft" 3 5 "SELL" ∧
    createOrUpdateAsset none "msft" 3 5 "SELL"
        = createOrUpdateAsset none "msft" 3 5 "sell" :=
  ⟨(asset_update_ignores_share_sign none "msft" 3 5 "buy").1,
   (asset_update_ignores_share_sign none "msft" 3 5 "SELL").1,
   (asset_update_ignores_share_sign none "msft" 3 5 "SELL").2 (by decide)⟩

/-- One row of the `transactions` table (`TransactionModel`), restricted to
the fields `create_transaction` always stores: upper-cased ticker,
`abs(shares)`, price and lower-cased type. -/
structure Txn where
  ticker : String
  shares : ℚ
  price_per_share : ℚ
  transaction_type : String
deriving DecidableEq, Repr

/-- One row of the `SHAREHOLDERS` table (`ShareholderModel`), restricted to
the fields the Withdrawal Planner reads. -/
structure Shareholder where
  id : ℕ
  name : String
  ownership : ℚ
  investment : ℚ
deriving DecidableEq, Repr

/-- The durable state the services mutate: the singleton firm row (id 1),
the portfolio, the transactions and the shareholders. psycopg2 runs every
top-level command in one transaction (`DatabaseConnection.__exit__` commits
on a clean exit and rolls back on an exception; `manual_rollback` and the
rollback in `handle_db_errors` restore this committed snapshot). -/
structure DB where
  firmCash : ℚ
  firmAssets : ℚ
  positions : List Asset
  txns : List Txn
  shareholders : List Shareholder
deriving DecidableEq, Repr

/-- `get_entity(ticker=...)`: first row whose ticker equals the key
(value comparison is case-sensitive in the store). -/
def findAsset (positions : List Asset) (ticker : String) : Option Asset :=
  positions.find? (fun a => a.ticker == ticker)

/-- `update` of the row that `create_or_update_asset` looked up by its
upper-cased ticker. -/
def setAsset (positions : List Asset) (key : String) (a' : Asset) : List Asset :=
  positions.map (fun a => if a.ticker == key then a' else a)

/-- The sell guard of `handle_create_transaction` (create.py lines 168–172):
a sell is refused when the raw-ticker lookup finds no row or the row holds
fewer shares than requested. -/
def sellBlocked (positions : List Asset) (ticker : String) (shares : ℚ) : Bool :=
  match findAsset positions ticker with
  | none => true
  | some a => a.total_shares < shares

/-- Injected repository outcomes for one `handle_create_transaction` run:
whether the transaction INSERT, the portfolio write inside
`create_or_update_asset`, and the firm UPDATE succeed. `handle_db_errors`
turns a failing statement into a rollback of the whole pending transaction
followed by a falsy return value. -/
structure TxnFaults where
  createTxnOk : Bool
  portfolioDbOk : Bool
  firmUpdateOk : Bool
deriving DecidableEq, Repr

/-- Observable outcome of one `handle_create_transaction` run: the state the
enclosing `with DatabaseConnection` block commits, and whether the portfolio
step reported success. -/
structure TxnOutcome where
  db : DB
  portfolioOk : Bool
deriving DecidableEq, Repr

/-- `handle_create_transaction` (software/database/services/create.py,
lines 131–220), the live buy/sell path dispatched from core.py. The run
starts from the committed snapshot; each early `return` (with or without
`manual_rollback` — nothing is pending on the guard paths) lets the
context manager commit the current state. A repository fault inside a step
rolls the pending work back to the committed snapshot; the handler then
*continues*: the firm-cash update at step 3 runs regardless of whether the
portfolio update at step 2 succeeded. -/
def handleCreateTransaction (committed : DB) (ticker : String)
    (shares price : ℚ) (transaction_type : String) (f : TxnFaults) :
    TxnOutcome :=
  let t := pyLower transaction_type
  if ¬ (t = "buy" ∨ t = "sell") then ⟨committed, false⟩
  else if t = "sell" ∧ sellBlocked committed.positions ticker shares then
    ⟨committed, false⟩
  else if t = "buy" ∧ committed.firmCash < shares * price then
    ⟨committed, false⟩
  else if ¬ f.createTxnOk then ⟨committed, false⟩
  else
    let cur1 : DB :=
      { committed with
          txns := committed.txns ++ [⟨pyUpper ticker, |shares|, price, t⟩] }
    let signed := if t = "buy" then shares else -shares
    let step2 : DB × Bool :=
      if ¬ f.portfolioDbOk then (committed, false)
      else
        match createOrUpdateAsset (findAsset cur1.positions (pyUpper ticker))
            ticker signed price t with
        | none => (cur1, false)
        | some a' =>
            (match findAsset cur1.positions (pyUpper ticker) with
             | none => { cur1 with positions := cur1.positions ++ [a'] }
             | some _ =>
                 { cur1 with
                     positions := setAsset cur1.positions (pyUpper ticker) a' },
             true)
    let cur2 := step2.1
    let delta := shares * price * (if t = "sell" then 1 else -1)
    let cur3 :=
      if f.firmUpdateOk then { cur2 with firmCash := cur2.firmCash + delta }
      else committed
    ⟨cur3, step2.2⟩

/-- C2: a sell whose share count exceeds the held `total_shares` (or for
which no position row exists) is refused by the guard before any write:
the service returns with a warning and the committed state — `total_shares`,
`total_invested`, `Firm.cash`, everything — is exactly the initial one. -/
theorem insufficient_sell_leaves_state_unchanged (db : DB) (ticker : String)
    (s p : ℚ) (f : TxnFaults)
    (h : sellBlocked db.positions ticker s = true) :
    handleCreateTransaction db ticker s p "sell" f = ⟨db, false⟩ := by
  have hl : pyLower "sell" = "sell" := by decide
  simp [handleCreateTransaction, hl, h]

/-- A three-share AAPL position used by several concrete instances. -/
def aaplThree : Asset :=
  { ticker := "AAPL", total_shares := 3, total_invested := 60,
    average_purchase_price := 20, current_price := some 20,
    realized_profit_loss := 0 }

/-- A small committed ledger holding only `aaplThree`. -/
def smallLedger : DB :=
  { firmCash := 100, firmAssets := 0, positions := [aaplThree],
    txns := [], shareholders := [] }

/-- Witness for `insufficient_sell_leaves_state_unchanged`: selling 5 shares
of a ticker held at 3 shares leaves the ledger untouched. -/
theorem insufficient_sell_leaves_state_unchanged_witness :
    handleCreateTransaction smallLedger "AAPL" 5 25 "sell" ⟨true, true, true⟩
      = ⟨smallLedger, false⟩ :=
  insufficient_sell_leaves_state_unchanged smallLedger "AAPL" 5 25
    ⟨true, true, true⟩
    (by norm_num [sellBlocked, findAsset, smallLedger, aaplThree])

/-- A ten-share AAPL position used by the non-atomicity instance. -/
def aaplTen : Asset :=
  { ticker := "AAPL", total_shares := 10, total_invested := 200,
    average_purchase_price := 20, current_price := some 20,
    realized_profit_loss := 0 }

/-- Committed ledger before the non-atomicity instance: cash 100, one
ten-share position, no transactions. -/
def ledgerBeforeSell : DB :=
  { firmCash := 100, firmAssets := 0, positions := [aaplTen],
    txns := [], shareholders := [] }

/-- C3 counterexample: `handle_create_transaction` is not atomic. Selling
5 shares at 10 while the portfolio write fails (a repository error makes
`handle_db_errors` roll the pending work back and return falsy) still runs
step 3: the firm-cash update `+50` is retained and committed, while the
position is unchanged and the transaction record was rolled back — the
claim's "either both are retained or neither" is false on this run. -/
theorem cash_update_survives_position_failure :
    (handleCreateTransaction ledgerBeforeSell "AAPL" 5 10 "sell"
        ⟨true, false, true⟩).portfolioOk = false ∧
    (handleCreateTransaction ledgerBeforeSell "AAPL" 5 10 "sell"
        ⟨true, false, true⟩).db.positions = ledgerBeforeSell.positions ∧
    (handleCreateTransaction ledgerBeforeSell "AAPL" 5 10 "sell"
        ⟨true, false, true⟩).db.txns = [] ∧
    (handleCreateTransaction ledgerBeforeSell "AAPL" 5 10 "sell"
        ⟨true, false, true⟩).db.firmCash = 150 ∧
    ledgerBeforeSell.firmCash = 100 := by
  have hl : pyLower "sell" = "sell" := by decide
  have hb : sellBlocked [aaplTen] "AAPL" 5 = false := by
    norm_num [sellBlocked, findAsset, aaplTen]
  have hrun : handleCreateTransaction ledgerBeforeSell "AAPL" 5 10 "sell"
      ⟨true, false, true⟩ =
      ⟨{ firmCash := 150, firmAssets := 0, positions := [aaplTen],
         txns := [], shareholders := [] }, false⟩ := by
    norm_num [handleCreateTransaction, hl, hb, ledgerBeforeSell]
  rw [hrun]
  refine ⟨rfl, ?_, rfl, rfl, by norm_num [ledgerBeforeSell]⟩
  norm_num [ledgerBeforeSell]

/-- C3 as amended: a buy or sell that passes the guards and whose
transaction-record and firm writes succeed changes `Firm.cash` by exactly
`−shares×price` (buy) or `+shares×price` (sell) — but this cash delta is
applied *whether or not* the position update succeeded: when the portfolio
write fails, the committed state still carries the cash delta while the
position rows and the transaction record revert, so the cash update and the
position update are not atomic as a unit. -/
theorem transaction_cash_delta (db : DB) (ticker : String) (s p : ℚ)
    (t : String) (f : TxnFaults)
    (ht : t = "buy" ∨ t = "sell")
    (hsell : t = "sell" → sellBlocked db.positions ticker s = false)
    (hbuy : t = "buy" → ¬ db.firmCash < s * p)
    (hc : f.createTxnOk = true) (hfm : f.firmUpdateOk = true) :
    (handleCreateTransaction db ticker s p t f).db.firmCash
        = db.firmCash + (if t = "sell" then s * p else -(s * p)) ∧
    (f.portfolioDbOk = false →
      (handleCreateTransaction db ticker s p t f).db.positions = db.positions ∧
      (handleCreateTransaction db ticker s p t f).db.txns = db.txns) := by
  obtain ⟨fc, fp, fm⟩ := f
  simp only at hc hfm
  subst hc hfm
  rcases ht with ht | ht <;> subst ht
  · have hl : pyLower "buy" = "buy" := by decide
    have hne : ¬ ("buy" : String) = "sell" := by decide
    rcases fp with _ | _
    · refine ⟨?_, fun _ => ?_⟩
      · simp [handleCreateTransaction, hl, hne, hbuy rfl]
      · simp [handleCreateTransaction, hl, hne, hbuy rfl]
    · refine ⟨?_, fun h => by simp at h⟩
      rcases hfd : findAsset db.positions (pyUpper ticker) with _ | a
      · simp only [handleCreateTransaction, hl, hne, hfd]
        simp [hbuy rfl]
        cases createOrUpdateAsset none ticker s p "buy" <;> simp
      · simp only [handleCreateTransaction, hl, hne, hfd]
        simp [hbuy rfl]
        cases createOrUpdateAsset (some a) ticker s p "buy" <;> simp
  · have hl : pyLower "sell" = "sell" := by decide
    have hne : ¬ ("sell" : String) = "buy" := by decide
    rcases fp with _ | _
    · refine ⟨?_, fun _ => ?_⟩
      · simp [handleCreateTransaction, hl, hne, hsell rfl]
      · simp [handleCreateTransaction, hl, hne, hsell rfl]
    · refine ⟨?_, fun h => by simp at h⟩
      rcases hfd : findAsset db.positions (pyUpper ticker) with _ | a
      · simp only [handleCreateTransaction, hl, hne, hfd]
        simp [hsell rfl]
        cases createOrUpdateAsset none ticker (-s) p "sell" <;> simp
      · simp only [handleCreateTransaction, hl, hne, hfd]
        simp [hsell rfl]
        cases createOrUpdateAsset (some a) ticker (-s) p "sell" <;> simp

/-- Witness for `transaction_cash_delta`: a fault-free buy of 2 shares at 10
from cash 100 moves `Firm.cash` by exactly −20. -/
theorem transaction_cash_delta_witness :
    (handleCreateTransaction
        { firmCash := 100, firmAssets := 0, positions := [], txns := [],
          shareholders := [] } "NVDA" 2 10 "buy"
        ⟨true, true, true⟩).db.firmCash
      = 100 + (if ("buy" : String) = "sell" then (2 : ℚ) * 10 else -(2 * 10)) :=
  (transaction_cash_delta
    { firmCash := 100, firmAssets := 0, positions := [], txns := [],
      shareholders := [] } "NVDA" 2 10 "buy" ⟨true, true, true⟩
    (Or.inl rfl)
    (fun h => absurd h (by decide))
    (fun _ => by norm_num)
    rfl rfl).1

/-- `BearhouseCapitalFeeCalculator.calculate_management_fee`
(software/icarus/analysis/finance.py, lines 19–24): 2% of the profit,
floored at zero profit. -/
def calculateManagementFee (profit : ℚ) : ℚ :=
  max 0 profit * (2 / 100)

/-- Python truthiness of the nullable `current_price` column: `NULL` and `0`
are falsy, everything else truthy (delete.py tests `if not asset.current_price`). -/
def pricedBool (a : Asset) : Bool :=
  match a.current_price with
  | none => false
  | some p => p != 0

/-- The price actually used once an asset passed the truthiness test. -/
def priceOf (a : Asset) : ℚ := a.current_price.getD 0

/-- `total_assets_value` of delete.py lines 149–152: the sum of
`total_shares × current_price` over assets with a truthy price and positive
shares. -/
def totalAssetsValue (assets : List Asset) : ℚ :=
  ((assets.filter (fun a => pricedBool a && decide (0 < a.total_shares))).map
    (fun a => a.total_shares * priceOf a)).sum

/-- One line of the liquidation plan of delete.py lines 154–181. -/
structure LiqPlan where
  ticker : String
  exact_shares : ℚ
  whole_shares : ℚ
  price : ℚ
  value : ℚ
deriving DecidableEq, Repr

/-- Decimal `quantize(Decimal('1'), rounding='ROUND_UP')`: rounding away
from zero to a whole number. -/
def roundUpAway (q : ℚ) : ℤ := if 0 ≤ q then ⌈q⌉ else ⌊q⌋

/-- The liquidation-planning loop of delete.py lines 154–181: skip unpriced
or zero-share assets, compute the exact proportional share count, round it
up to whole shares, cap at the held shares, and skip lines whose rounded
count is not positive. -/
def buildLiquidationPlans (assets : List Asset) (remaining totalAV : ℚ) :
    List LiqPlan :=
  assets.filterMap (fun a =>
    if pricedBool a = false ∨ a.total_shares = 0 then none
    else if 0 < min ((roundUpAway
        (a.total_shares * (remaining / totalAV)) : ℤ) : ℚ) a.total_shares then
      some ⟨a.ticker, a.total_shares * (remaining / totalAV),
            min ((roundUpAway
              (a.total_shares * (remaining / totalAV)) : ℤ) : ℚ) a.total_shares,
            priceOf a,
            min ((roundUpAway
                (a.total_shares * (remaining / totalAV)) : ℤ) : ℚ) a.total_shares
              * priceOf a⟩
    else none)

/-- C5: every line of the liquidation plan sells exactly the exact
proportional share count rounded up and capped at the held shares; the
rounded count is positive (zero-count positions are skipped), never exceeds
the held shares (so no position goes negative), and the liquidated value
exceeds the exact proportional value by less than one share's price. -/
theorem liquidation_plan_rounding (assets : List Asset) (remaining : ℚ)
    (hrem : 0 < remaining)
    (hshares : ∀ a ∈ assets, 0 ≤ a.total_shares)
    (hprice : ∀ a ∈ assets, ∀ q, a.current_price = some q → 0 < q) :
    ∀ plan ∈ buildLiquidationPlans assets remaining (totalAssetsValue assets),
      ∃ a ∈ assets,
        plan.whole_shares
          = min ((roundUpAway
                (a.total_shares * (remaining / totalAssetsValue assets)) : ℤ) : ℚ)
              a.total_shares ∧
        0 < plan.whole_shares ∧
        plan.whole_shares ≤ a.total_shares ∧
        plan.value
            - a.total_shares * (remaining / totalAssetsValue assets) * plan.price
          < plan.price := by
  intro plan hplan
  rw [buildLiquidationPlans] at hplan
  obtain ⟨a, ha, hfa⟩ := List.mem_filterMap.mp hplan
  by_cases h1 : pricedBool a = false ∨ a.total_shares = 0
  · rw [if_pos h1] at hfa; cases hfa
  rw [if_neg h1] at hfa
  by_cases h2 : 0 < min ((roundUpAway
      (a.total_shares * (remaining / totalAssetsValue assets)) : ℤ) : ℚ)
      a.total_shares
  swap
  · rw [if_neg h2] at hfa; cases hfa
  rw [if_pos h2] at hfa
  -- the kept branch: `some ⟨…⟩ = some plan`
  · obtain ⟨hpb, hnz⟩ : pricedBool a = true ∧ ¬ a.total_shares = 0 := by
      rcases Bool.eq_false_or_eq_true (pricedBool a) with h | h
      · exact ⟨h, fun hz => h1 (Or.inr hz)⟩
      · exact absurd (Or.inl h) h1
    have hsh : 0 < a.total_shares := lt_of_le_of_ne (hshares a ha) (Ne.symm hnz)
    obtain ⟨q, hq, hqz⟩ : ∃ q, a.current_price = some q ∧ q ≠ 0 := by
      unfold pricedBool at hpb
      rcases hcp : a.current_price with _ | q
      · rw [hcp] at hpb; cases hpb
      · rw [hcp] at hpb
        exact ⟨q, rfl, by simpa using hpb⟩
    have hq0 : 0 < q := hprice a ha q hq
    have hpriceOf : priceOf a = q := by simp [priceOf, hq]
    -- the filtered sum is positive because this asset contributes positively
    have hmemf : a ∈ assets.filter
        (fun a => pricedBool a && decide (0 < a.total_shares)) := by
      rw [List.mem_filter]
      exact ⟨ha, by simp [hpb, hsh]⟩
    have hnn : ∀ x ∈ (assets.filter
        (fun a => pricedBool a && decide (0 < a.total_shares))).map
          (fun a => a.total_shares * priceOf a), 0 ≤ x := by
      intro x hx
      obtain ⟨b, hb, rfl⟩ := List.mem_map.mp hx
      have hbpos : 0 < b.total_shares := by
        have := (List.mem_filter.mp hb).2
        simp only [Bool.and_eq_true, decide_eq_true_eq] at this
        exact this.2
      have hbp : 0 ≤ priceOf b := by
        have hbmem : b ∈ assets := (List.mem_filter.mp hb).1
        have := (List.mem_filter.mp hb).2
        simp only [Bool.and_eq_true, decide_eq_true_eq] at this
        unfold pricedBool at this
        rcases hcb : b.current_price with _ | qb
        · simp [priceOf, hcb]
        · have hq' := hprice b hbmem qb hcb
          simp only [priceOf, hcb, Option.getD_some]
          linarith
      positivity
    have htav : 0 < totalAssetsValue assets := by
      have hterm : a.total_shares * priceOf a
          ≤ totalAssetsValue assets :=
        List.single_le_sum hnn _ (List.mem_map_of_mem _ hmemf)
      have : 0 < a.total_shares * priceOf a := by
        rw [hpriceOf]; exact mul_pos hsh hq0
      linarith
    have hex0 : 0 ≤ a.total_shares * (remaining / totalAssetsValue assets) :=
      le_of_lt (mul_pos hsh (div_pos hrem htav))
    have hround : roundUpAway
        (a.total_shares * (remaining / totalAssetsValue assets))
        = ⌈a.total_shares * (remaining / totalAssetsValue assets)⌉ :=
      if_pos hex0
    obtain rfl := (Option.some.inj hfa).symm
    refine ⟨a, ha, rfl, h2, min_le_right _ _, ?_⟩
    have hlt1 : min ((roundUpAway
        (a.total_shares * (remaining / totalAssetsValue assets)) : ℤ) : ℚ)
          a.total_shares
        < a.total_shares * (remaining / totalAssetsValue assets) + 1 := by
      have hceil : ((⌈a.total_shares
          * (remaining / totalAssetsValue assets)⌉ : ℤ) : ℚ)
          < a.total_shares * (remaining / totalAssetsValue assets) + 1 := by
        exact_mod_cast Int.ceil_lt_add_one
          (a.total_shares * (remaining / totalAssetsValue assets))
      calc min ((roundUpAway
            (a.total_shares * (remaining / totalAssetsValue assets)) : ℤ) : ℚ)
            a.total_shares
          ≤ ((roundUpAway
            (a.total_shares * (remaining / totalAssetsValue assets)) : ℤ) : ℚ) :=
            min_le_left _ _
        _ = ((⌈a.total_shares
            * (remaining / totalAssetsValue assets)⌉ : ℤ) : ℚ) := by rw [hround]
        _ < a.total_shares * (remaining / totalAssetsValue assets) + 1 := hceil
    have hq0' : 0 < priceOf a := by rw [hpriceOf]; exact hq0
    have := mul_lt_mul_of_pos_right (show min ((roundUpAway
        (a.total_shares * (remaining / totalAssetsValue assets)) : ℤ) : ℚ)
          a.total_shares
        - a.total_shares * (remaining / totalAssetsValue assets) < 1
      by linarith) hq0'
    simpa [sub_mul] using this

/-- Witness for `liquidation_plan_rounding`: one 10-share position priced at
7 with a remaining shortfall of 3 produces the single line
(exact 3/7, whole 1, value 7). -/
theorem liquidation_plan_rounding_witness :
    ∃ a ∈ [{ ticker := "MSFT", total_shares := 10, total_invested := 50,
             average_purchase_price := 5, current_price := some 7,
             realized_profit_loss := 0 : Asset }],
      (1 : ℚ) = min ((roundUpAway
            (a.total_shares * (3 / totalAssetsValue
              [{ ticker := "MSFT", total_shares := 10, total_invested := 50,
                 average_purchase_price := 5, current_price := some 7,
                 realized_profit_loss := 0 : Asset }])) : ℤ) : ℚ)
          a.total_shares ∧
      (0 : ℚ) < 1 ∧
      (1 : ℚ) ≤ a.total_shares ∧
      (7 : ℚ) - a.total_shares * (3 / totalAssetsValue
          [{ ticker := "MSFT", total_shares := 10, total_invested := 50,
             average_purchase_price := 5, current_price := some 7,
             realized_profit_loss := 0 : Asset }]) * 7
        < 7 := by
  have h := liquidation_plan_rounding
    [{ ticker := "MSFT", total_shares := 10, total_invested := 50,
       average_purchase_price := 5, current_price := some 7,
       realized_profit_loss := 0 : Asset }] 3 (by norm_num)
    (by intro a ha; simp at ha; subst ha; norm_num)
    (by intro a ha q hq; simp at ha; subst ha; simp at hq; subst hq; norm_num)
    ⟨"MSFT", 3/7, 1, 7, 7⟩ (by
      have hc : (⌈(3 : ℚ)/7⌉ : ℤ) = 1 := by
        rw [Int.ceil_eq_iff]
        norm_num
      norm_num [buildLiquidationPlans, totalAssetsValue, pricedBool, priceOf,
        roundUpAway, min_def, hc])
  simpa using h

/-- `shareholder_value` of delete.py lines 96–97: the shareholder's
pro-rata claim `(cash + assets) × ownership/100`. -/
def entitledValue (cash assets ownership : ℚ) : ℚ :=
  (cash + assets) * (ownership / 100)

/-- The answers given to the interactive confirmations of
`handle_delete_shareholder_v2` (each `input(...)` in order). -/
structure Confirms where
  proceed : Bool
  calculations : Bool
  liquidate : Bool
  planConfirm : Bool
  finalConfirm : Bool
deriving DecidableEq, Repr

/-- Injected repository outcomes for one withdrawal run: the firm UPDATE,
the per-plan transaction INSERTs and portfolio writes (indexed by plan
position), and the shareholder DELETE. -/
structure WdFaults where
  firmUpdateOk : Bool
  txnCreateOk : ℕ → Bool
  portfolioOk : ℕ → Bool
  deleteOk : Bool

/-- Outcome of one withdrawal run: the handler's boolean and the state the
store holds afterwards (the explicit `commit` on success, or the state left
by `manual_rollback` on every failure path). -/
structure WdOutcome where
  ok : Bool
  db : DB
deriving Repr

/-- The liquidation-execution loop of delete.py lines 230–257: for each plan
line, create a sell transaction, then apply the sell through
`create_or_update_asset` with negated shares; any failure rolls back
(returns `none`, mapped to the committed snapshot by the caller). -/
def execPlans (cur : DB) (plans : List LiqPlan) (i : ℕ) (f : WdFaults) :
    Option DB :=
  match plans with
  | [] => some cur
  | plan :: rest =>
      if f.txnCreateOk i = false then none
      else
        let cur1 : DB :=
          { cur with txns := cur.txns ++
              [⟨pyUpper plan.ticker, |plan.whole_shares|, plan.price, "sell"⟩] }
        if f.portfolioOk i = false then none
        else
          match createOrUpdateAsset
              (findAsset cur1.positions (pyUpper plan.ticker)) plan.ticker
              (-plan.whole_shares) plan.price "sell" with
          | none => none
          | some a' =>
              execPlans
                { cur1 with
                    positions := setAsset cur1.positions (pyUpper plan.ticker) a' }
                rest (i + 1) f

/-- The fee application of delete.py lines 200–213: when the entitled value
exceeds the investment, the 2% management fee on the profit is retained by
the firm, reducing the cash withdrawal. -/
def wdCashAfterFee (sh : Shareholder)
    (shareholder_value cash_withdrawal0 : ℚ) : ℚ :=
  if sh.investment < shareholder_value then
    cash_withdrawal0 - calculateManagementFee (shareholder_value - sh.investment)
  else cash_withdrawal0

/-- `cash_withdrawal` before fees (delete.py line 123): cash first. -/
def wdCash0 (committed : DB) (sh : Shareholder) : ℚ :=
  min committed.firmCash
    (entitledValue committed.firmCash committed.firmAssets sh.ownership)

/-- `remaining_value` (delete.py line 124): the shortfall to liquidate. -/
def wdRemaining (committed : DB) (sh : Shareholder) : ℚ :=
  entitledValue committed.firmCash committed.firmAssets sh.ownership
    - wdCash0 committed sh

/-- The commit phase of delete.py lines 200–275: fee application, the firm
cash/assets update, the liquidation transactions, the final confirmation,
the shareholder deletion, and the explicit `commit`. Every failure path
calls `manual_rollback` (or nothing is pending) and returns `False`, so the
store keeps the committed snapshot. -/
def commitPhase (committed : DB) (sh : Shareholder) (plans : List LiqPlan)
    (shareholder_value cash_withdrawal0 : ℚ) (conf : Confirms)
    (f : WdFaults) : WdOutcome :=
  if f.firmUpdateOk = false then ⟨false, committed⟩
  else
    match execPlans
        { committed with
            firmCash := committed.firmCash
              - wdCashAfterFee sh shareholder_value cash_withdrawal0
            firmAssets := committed.firmAssets
              - (plans.map (fun p => p.value)).sum }
        plans 0 f with
    | none => ⟨false, committed⟩
    | some cur2 =>
        if conf.finalConfirm = false then ⟨false, committed⟩
        else if f.deleteOk = false then ⟨false, committed⟩
        else ⟨true, { cur2 with
            shareholders := cur2.shareholders.filter (fun s => !(s.id == sh.id)) }⟩

/-- `handle_delete_shareholder_v2` (software/database/services/delete.py,
lines 63–282): lookup, valuation, cash-first allocation, optional
liquidation planning, then the commit phase. A liquidation branch whose
`total_assets_value` is zero while some priced nonzero-share asset enters
the loop raises a Decimal division by zero, which the outer `except`
turns into rollback-and-`False`. -/
def handleDeleteShareholder (committed : DB) (sid : ℕ) (conf : Confirms)
    (f : WdFaults) : WdOutcome :=
  match committed.shareholders.find? (fun s => s.id == sid) with
  | none => ⟨false, committed⟩
  | some sh =>
      if conf.proceed = false then ⟨false, committed⟩
      else if conf.calculations = false then ⟨false, committed⟩
      else if 0 < wdRemaining committed sh then
        if conf.liquidate = false then ⟨false, committed⟩
        else if totalAssetsValue committed.positions = 0 ∧
            committed.positions.any
              (fun a => pricedBool a && !(a.total_shares == 0)) then
          ⟨false, committed⟩
        else if conf.planConfirm = false then ⟨false, committed⟩
        else
          commitPhase committed sh
            (buildLiquidationPlans committed.positions (wdRemaining committed sh)
              (totalAssetsValue committed.positions))
            (entitledValue committed.firmCash committed.firmAssets sh.ownership)
            (wdCash0 committed sh) conf f
      else
        commitPhase committed sh []
          (entitledValue committed.firmCash committed.firmAssets sh.ownership)
          (wdCash0 committed sh) conf f

/-- Every failing commit phase leaves the committed snapshot: each failure
branch of delete.py lines 200–275 returns only after `manual_rollback`. -/
theorem commitPhase_fail_keeps (committed : DB) (sh : Shareholder)
    (plans : List LiqPlan) (v c0 : ℚ) (conf : Confirms) (f : WdFaults)
    (h : (commitPhase committed sh plans v c0 conf f).ok = false) :
    (commitPhase committed sh plans v c0 conf f).db = committed := by
  revert h
  unfold commitPhase
  repeat' split
  all_goals intro h
  all_goals first | rfl | simp at h

/-- C6: whenever the Withdrawal Planner reports failure — for any committed
state, shareholder id, confirmation answers and injected repository
failures — the store afterwards is exactly the committed state from before
the withdrawal began: every failure path rolls back all partial work, and
partial application is never observable. -/
theorem withdrawal_failure_rolls_back (committed : DB) (sid : ℕ)
    (conf : Confirms) (f : WdFaults)
    (h : (handleDeleteShareholder committed sid conf f).ok = false) :
    (handleDeleteShareholder committed sid conf f).db = committed := by
  revert h
  unfold handleDeleteShareholder
  split
  · exact fun _ => rfl
  · split
    · exact fun _ => rfl
    · split
      · exact fun _ => rfl
      · split
        · split
          · exact fun _ => rfl
          · split
            · exact fun _ => rfl
            · split
              · exact fun _ => rfl
              · exact fun h => commitPhase_fail_keeps _ _ _ _ _ _ _ h
        · exact fun h => commitPhase_fail_keeps _ _ _ _ _ _ _ h

/-- With no liquidation lines the execution loop is a no-op. -/
theorem execPlans_nil (cur : DB) (i : ℕ) (f : WdFaults) :
    execPlans cur [] i f = some cur := rfl

/-- Witness for `withdrawal_failure_rolls_back`: a run whose shareholder
DELETE fails reports failure and leaves the committed state intact. -/
theorem withdrawal_failure_rolls_back_witness :
    (handleDeleteShareholder
        { firmCash := 500, firmAssets := 0, positions := [], txns := [],
          shareholders := [⟨7, "Ada", 10, 40⟩] } 7
        ⟨true, true, true, true, true⟩
        ⟨true, fun _ => true, fun _ => true, false⟩).db
      = { firmCash := 500, firmAssets := 0, positions := [], txns := [],
          shareholders := [⟨7, "Ada", 10, 40⟩] } :=
  withdrawal_failure_rolls_back _ 7 _ _ (by
    norm_num [handleDeleteShareholder, commitPhase, execPlans, entitledValue,
      min_def, List.find?])

/-- The §8 withdrawal scenario: firm cash 500, assets 0, one shareholder
with 10% ownership and investment 40, no positions. -/
def wdLedger : DB :=
  { firmCash := 500, firmAssets := 0, positions := [], txns := [],
    shareholders := [⟨7, "Ada", 10, 40⟩] }

/-- Every confirmation answered yes. -/
def allYes : Confirms := ⟨true, true, true, true, true⟩

/-- Every repository operation succeeds. -/
def wdAllOk : WdFaults := ⟨true, fun _ => true, fun _ => true, true⟩

/-- C4 counterexample: in the §8 scenario the final `cash_withdrawal` is
`50 − 0.2 = 49.8`, not `9.8`, and `Firm.cash` decreases by exactly 49.8
(to 450.2), not by 9.8; `9.8` is the *net profit* (`profit − fee`), which
the claim conflates with the cash withdrawal. -/
theorem withdrawal_scenario_cash_is_49_8 :
    wdCashAfterFee ⟨7, "Ada", 10, 40⟩ (entitledValue 500 0 10)
        (wdCash0 wdLedger ⟨7, "Ada", 10, 40⟩) = 249/5 ∧
    ¬ (wdCashAfterFee ⟨7, "Ada", 10, 40⟩ (entitledValue 500 0 10)
        (wdCash0 wdLedger ⟨7, "Ada", 10, 40⟩) = 49/5) ∧
    (handleDeleteShareholder wdLedger 7 allYes wdAllOk).db.firmCash
        = 500 - 249/5 ∧
    ¬ ((handleDeleteShareholder wdLedger 7 allYes wdAllOk).db.firmCash
        = 500 - 49/5) := by
  have hfee : wdCashAfterFee ⟨7, "Ada", 10, 40⟩ (entitledValue 500 0 10)
      (wdCash0 wdLedger ⟨7, "Ada", 10, 40⟩) = 249/5 := by
    norm_num [wdCashAfterFee, entitledValue, wdCash0, wdLedger,
      calculateManagementFee, min_def, max_def]
  have hrun : handleDeleteShareholder wdLedger 7 allYes wdAllOk =
      ⟨true, { firmCash := 500 - 249/5, firmAssets := 0, positions := [],
               txns := [], shareholders := [] }⟩ := by
    norm_num [handleDeleteShareholder, commitPhase, execPlans, wdLedger,
      allYes, wdAllOk, wdRemaining, wdCash0, entitledValue, wdCashAfterFee,
      calculateManagementFee, min_def, max_def, List.find?]
  refine ⟨hfee, by rw [hfee]; norm_num, by rw [hrun], ?_⟩
  rw [hrun]
  norm_num

/-- C4 as amended: in the §8 scenario `entitled_value = 50`, the withdrawal
is satisfied entirely from cash (`remaining = 0`), `profit = 10`,
`management_fee = 0.2`, the final `cash_withdrawal` is `49.8` (of which
`9.8` is net profit over the investment of 40), the shareholder row is
deleted, and `Firm.cash` decreases by exactly 49.8, to 450.2. -/
theorem withdrawal_scenario_exact_values :
    entitledValue 500 0 10 = 50 ∧
    wdRemaining wdLedger ⟨7, "Ada", 10, 40⟩ = 0 ∧
    calculateManagementFee (entitledValue 500 0 10 - 40) = 1/5 ∧
    wdCashAfterFee ⟨7, "Ada", 10, 40⟩ (entitledValue 500 0 10)
        (wdCash0 wdLedger ⟨7, "Ada", 10, 40⟩) = 249/5 ∧
    (handleDeleteShareholder wdLedger 7 allYes wdAllOk).ok = true ∧
    (handleDeleteShareholder wdLedger 7 allYes wdAllOk).db.shareholders
        = [] ∧
    (handleDeleteShareholder wdLedger 7 allYes wdAllOk).db.firmCash
        = 2251/5 := by
  have hrun : handleDeleteShareholder wdLedger 7 allYes wdAllOk =
      ⟨true, { firmCash := 500 - 249/5, firmAssets := 0, positions := [],
               txns := [], shareholders := [] }⟩ := by
    norm_num [handleDeleteShareholder, commitPhase, execPlans, wdLedger,
      allYes, wdAllOk, wdRemaining, wdCash0, entitledValue, wdCashAfterFee,
      calculateManagementFee, min_def, max_def, List.find?]
  refine ⟨by norm_num [entitledValue], ?_, ?_, ?_, ?_, ?_, ?_⟩
  · norm_num [wdRemaining, wdCash0, entitledValue, wdLedger, min_def]
  · norm_num [calculateManagementFee, entitledValue, max_def]
  · norm_num [wdCashAfterFee, entitledValue, wdCash0, wdLedger,
      calculateManagementFee, min_def, max_def]
  · rw [hrun]
  · rw [hrun]
  · rw [hrun]; norm_num

/-- A Python value as it reaches `BaseRepository.update`: a
`decimal.Decimal` (tagged with its exact value), a binary `float` (tagged
with the rational it represents exactly), or text. -/
inductive PyVal where
  | dec : ℚ → PyVal
  | flt : ℚ → PyVal
  | txt : String → PyVal
deriving DecidableEq, Repr

/-- Round half to even on ℚ, the tie-breaking rule of IEEE-754
(`n % 2 = 0` is the evenness test). -/
def roundHalfEven (x : ℚ) : ℤ :=
  if x - ⌊x⌋ < 1/2 then ⌊x⌋
  else if 1/2 < x - ⌊x⌋ then ⌊x⌋ + 1
  else if ⌊x⌋ % 2 = 0 then ⌊x⌋ else ⌊x⌋ + 1

/-- `2^e` for a signed exponent. -/
def pow2 (e : ℤ) : ℚ :=
  if 0 ≤ e then ((2 : ℚ) ^ e.toNat) else 1 / (2 : ℚ) ^ (-e).toNat

/-- Scale a positive rational up by powers of two until its significand
reaches `2^52` (fuel-bounded; 1200 covers the full binary64 range). -/
def scaleUp (fuel : ℕ) (m : ℚ) (e : ℤ) : ℚ × ℤ :=
  if fuel = 0 then (m, e)
  else if m < 2 ^ 52 then scaleUp (fuel - 1) (m * 2) (e - 1) else (m, e)
termination_by fuel
decreasing_by omega

/-- Scale a positive rational down by powers of two until its significand
drops below `2^53`. -/
def scaleDown (fuel : ℕ) (m : ℚ) (e : ℤ) : ℚ × ℤ :=
  if fuel = 0 then (m, e)
  else if 2 ^ 53 ≤ m then scaleDown (fuel - 1) (m / 2) (e + 1) else (m, e)
termination_by fuel
decreasing_by omega

/-- IEEE-754 binary64 rounding (round to nearest, ties to even) of a
positive rational in the normal range: normalise the significand into
`[2^52, 2^53)`, round it to an integer, and re-apply the exponent. -/
def floatRoundPos (q : ℚ) : ℚ :=
  ((fun p2 =>
      if roundHalfEven p2.1 = 2 ^ 53 then ((2 : ℚ) ^ 52) * pow2 (p2.2 + 1)
      else ((roundHalfEven p2.1 : ℤ) : ℚ) * pow2 p2.2)
    (scaleDown 1200 (scaleUp 1200 q 0).1 (scaleUp 1200 q 0).2))

/-- The exact value of Python's `float(x)` on a Decimal `x`, for the
binary64 normal range the ledger's monetary values live in. -/
def floatRound (q : ℚ) : ℚ :=
  if q = 0 then 0 else if 0 < q then floatRoundPos q else -(floatRoundPos (-q))

/-- The value coercion of `BaseRepository.update`
(software/database/repositories/base.py, line 162):
`float(value) if isinstance(value, numbers.Number) else value` — every
numeric field, Decimal included, is passed through binary `float` before
being written. -/
def coerceForUpdate : PyVal → PyVal
  | .dec q => .flt (floatRound q)
  | .flt q => .flt q
  | .txt s => .txt s

/-- The position whose partial sell produces a non-dyadic cost basis. -/
def dimeAsset : Asset :=
  { ticker := "INV", total_shares := 10, total_invested := 1,
    average_purchase_price := 1/10, current_price := some (1/10),
    realized_profit_loss := 0 }

/-- Closed form of the scale-up loop: with enough fuel it multiplies by `2`
exactly until the significand leaves `[0, 2^52)`. -/
theorem scaleUp_eval (k : ℕ) : ∀ (fuel : ℕ) (q : ℚ) (e : ℤ),
    k ≤ fuel → (∀ j : ℕ, j < k → q * 2 ^ j < 2 ^ 52) →
    ¬ (q * 2 ^ k < 2 ^ 52) →
    scaleUp fuel q e = (q * 2 ^ k, e - k) := by
  induction k with
  | zero =>
      intro fuel q e _ _ hge
      simp only [pow_zero, mul_one] at hge
      rw [scaleUp]
      by_cases h1 : fuel = 0
      · rw [if_pos h1]; simp
      · rw [if_neg h1, if_neg hge]; simp
  | succ k ih =>
      intro fuel q e hk hlt hge
      have hf : fuel ≠ 0 := by omega
      have h0 : q < 2 ^ 52 := by
        have := hlt 0 (by omega)
        simpa using this
      rw [scaleUp, if_neg hf, if_pos h0]
      rw [ih (fuel - 1) (q * 2) (e - 1) (by omega)
        (fun j hj => by
          have := hlt (j + 1) (by omega)
          rw [pow_succ] at this
          linarith [this])
        (by
          rw [pow_succ] at hge
          intro hc
          exact hge (by linarith))]
      simp only [Prod.mk.injEq]
      constructor
      · rw [pow_succ]; ring
      · push_cast; ring

/-- The scale-down loop does nothing when the significand is already below
`2^53`. -/
theorem scaleDown_stop (fuel : ℕ) (m : ℚ) (e : ℤ) (h : ¬ 2 ^ 53 ≤ m) :
    scaleDown fuel m e = (m, e) := by
  rw [scaleDown]
  split_ifs <;> simp_all

/-- The binary64 image of the Decimal `0.7`: its significand
`0.7 × 2^53 = 6305039478318694.4` rounds down. -/
theorem floatRound_seven_tenths :
    floatRound (7/10) = 6305039478318694 / 2 ^ 53 := by
  have hup : scaleUp 1200 (7/10) 0 = ((7:ℚ)/10 * 2 ^ 53, (0:ℤ) - 53) := by
    refine scaleUp_eval 53 1200 (7/10) 0 (by norm_num) ?_ (by norm_num)
    intro j hj
    have hj' : j ≤ 52 := by omega
    have h2j : (2:ℚ) ^ j ≤ 2 ^ 52 := pow_le_pow_right₀ (by norm_num) hj'
    nlinarith [h2j]
  have hfloor : ⌊(7:ℚ)/10 * 2 ^ 53⌋ = 6305039478318694 := by
    rw [Int.floor_eq_iff]
    norm_num
  have hrh : roundHalfEven ((7:ℚ)/10 * 2 ^ 53) = 6305039478318694 := by
    rw [roundHalfEven, hfloor, if_pos (by norm_num)]
  rw [floatRound, if_neg (by norm_num), if_pos (by norm_num), floatRoundPos,
    hup]
  rw [scaleDown_stop 1200 _ _ (by norm_num)]
  simp only [hrh]
  rw [if_neg (by norm_num), pow2, if_neg (by norm_num)]
  rw [show (-((0:ℤ) - 53)).toNat = 53 from rfl]
  norm_num

/-- `float(Decimal('0.7'))` is not `0.7`. -/
theorem floatRound_seven_tenths_ne : floatRound (7/10) ≠ 7/10 := by
  rw [floatRound_seven_tenths]
  norm_num

/-- C9 counterexample: the ledger's Decimal arithmetic computes the
post-sell `total_invested` exactly (here `0.7`), but `BaseRepository.update`
passes every numeric field through `float(...)` before persisting, so the
persisted value is the binary64 value `floatRound 0.7`, which differs from
the exact Decimal — persisted monetary values are *not* kept in
fixed-precision decimal. -/
theorem persisted_cost_basis_passes_through_float :
    (∃ a', createOrUpdateAsset (some dimeAsset) "INV" 3 (2/10) "sell"
          = some a' ∧ a'.total_invested = 7/10) ∧
    coerceForUpdate (PyVal.dec (7/10)) = PyVal.flt (floatRound (7/10)) ∧
    coerceForUpdate (PyVal.dec (7/10)) ≠ PyVal.dec (7/10) ∧
    floatRound (7/10) ≠ 7/10 := by
  refine ⟨⟨{ ticker := "INV", total_shares := 7, total_invested := 7/10,
             average_purchase_price := 1/10, current_price := some (2/10),
             realized_profit_loss := 3/10 }, ?_, rfl⟩,
          rfl, by simp [coerceForUpdate], floatRound_seven_tenths_ne⟩
  simp only [createOrUpdateAsset, pyLower_sell_ne_buy, Bool.false_eq_true,
    if_false, dimeAsset]
  norm_num

/-- C9 as amended: monetary arithmetic *inside* the Position Ledger and
Withdrawal Planner is Decimal (exact), but every value persisted through
`BaseRepository.update` is coerced to binary floating point
(`float(value)` for any `numbers.Number`), so persisted cost-basis
quantities are exact only when binary64-representable: the sell leaving
`total_invested = 0.7` persists `floatRound 0.7 ≠ 0.7`. -/
theorem update_coerces_decimal_to_float :
    (∀ q : ℚ, coerceForUpdate (PyVal.dec q) = PyVal.flt (floatRound q)) ∧
    (∃ a', createOrUpdateAsset (some dimeAsset) "INV" 3 (2/10) "sell"
          = some a' ∧ a'.total_invested = 7/10 ∧
        coerceForUpdate (PyVal.dec a'.total_invested)
          = PyVal.flt (floatRound (7/10)) ∧
        floatRound (7/10) ≠ 7/10) := by
  refine ⟨fun q => rfl,
    ⟨{ ticker := "INV", total_shares := 7, total_invested := 7/10,
       average_purchase_price := 1/10, current_price := some (2/10),
       realized_profit_loss := 3/10 }, ?_, rfl, rfl,
      floatRound_seven_tenths_ne⟩⟩
  simp only [createOrUpdateAsset, pyLower_sell_ne_buy, Bool.false_eq_true,
    if_false, dimeAsset]
  norm_num


/-- A deterministic stream of pseudo-random draws with a cursor: the
abstraction of Python's global `random` module after `random.seed(s)` —
every draw is a pure function of the seed and the draw index. -/
structure Rng where
  stream : ℕ → ℕ
  pos : ℕ

/-- Take one draw and advance the cursor. -/
def Rng.next (r : Rng) : ℕ × Rng := (r.stream r.pos, ⟨r.stream, r.pos + 1⟩)

/-- The seeded stream (an LCG-style mixing of seed and index standing in
for the Mersenne Twister; the claims depend only on it being a
deterministic function of the seed). -/
def seedRng (seed : ℕ) : Rng :=
  ⟨fun i => (seed * 6364136223846793005 + i * 1442695040888963407
      + 1013904223) % 18446744073709551616, 0⟩

/-- `k` draws without replacement from `pool`, in draw order — the model of
`random.sample(pool, k)` over the abstract stream (the drawn element is
removed by value, which on the duplicate-free pools the generator samples
from coincides with removal by index). -/
def sampleAux {α : Type} [DecidableEq α] : ℕ → List α → Rng → List α × Rng
  | 0, _, r => ([], r)
  | k + 1, pool, r =>
      match pool with
      | [] => ([], r)
      | _ :: _ =>
          match pool.get? ((r.next).1 % pool.length) with
          | none => ([], (r.next).2)
          | some x =>
              let res := sampleAux k (pool.erase x) (r.next).2
              (x :: res.1, res.2)

/-- `random.sample(pool, k)`. -/
def randomSample {α : Type} [DecidableEq α] (pool : List α) (k : ℕ)
    (r : Rng) : List α × Rng := sampleAux k pool r

/-- `random.shuffle(l)`: a full sample is a shuffle. -/
def randomShuffle {α : Type} [DecidableEq α] (l : List α) (r : Rng) :
    List α × Rng := sampleAux l.length l r

/-- The per-ticker attribute snapshot (`self.ticker_data[t]`) with the
attributes this generator reads. -/
structure TickerData where
  dividend_yield : Option ℚ
  price : Option ℚ
  sector : Option String
deriving DecidableEq, Repr

/-- One entry of `self.criteria` (generator.py `add_criterion`): a weight,
an optional filter function and an optional sort key. -/
structure Criterion where
  weight : ℚ
  filterF : Option (TickerData → Bool)
  sortKey : Option (TickerData → ℚ)

/-- `self.ticker_data[t]` for the snapshot modelled as an ordered
association list. -/
def tickerLookup (data : List (String × TickerData)) (t : String) :
    TickerData :=
  ((data.find? (fun p => p.1 == t)).map Prod.snd).getD ⟨none, none, none⟩

/-- The sort key of `_create_portfolio` lines 301–305: the weighted sum of
the available sort keys. -/
def scoreOf (criteria : List Criterion) (d : TickerData) : ℚ :=
  (criteria.filterMap (fun c => c.sortKey.map (fun k => c.weight * k d))).sum

/-- Insert into a descending-sorted list, before equal scores — the
stable-descending behaviour of Python's `list.sort(reverse=True)`. -/
def insertDescBy {α : Type} (score : α → ℚ) (x : α) : List α → List α
  | [] => [x]
  | y :: ys => if score y ≤ score x then x :: y :: ys
               else y :: insertDescBy score x ys

/-- Stable descending sort by score. -/
def sortDescBy {α : Type} (score : α → ℚ) : List α → List α
  | [] => []
  | x :: xs => insertDescBy score x (sortDescBy score xs)

/-- `PortfolioGenerator._create_portfolio`
(software/icarus/analysis/portfolio/generator.py, lines 287–328): sort by
combined score when any sort key exists, split into thirds, sample up to 2
from each segment, fill from the unused candidates when short, shuffle, and
truncate to `stocks_per_portfolio`. -/
def createPortfolio (data : List (String × TickerData))
    (criteria : List Criterion) (validTickers : List String)
    (stocksPerPortfolio : ℕ) (r : Rng) : List String × Rng :=
  let candidates :=
    if criteria.any (fun c => c.sortKey.isSome) then
      sortDescBy (fun t => scoreOf criteria (tickerLookup data t)) validTickers
    else validTickers
  let segment_size := max 1 (candidates.length / 3)
  let high := candidates.take segment_size
  let mid := (candidates.drop segment_size).take segment_size
  let low := candidates.drop (2 * segment_size)
  let s1 := randomSample high (min 2 high.length) r
  let s2 := randomSample mid (min 2 mid.length) s1.2
  let s3 := randomSample low (min 2 low.length) s2.2
  let selected := s1.1 ++ s2.1 ++ s3.1
  let afterFill :=
    if selected.length < stocksPerPortfolio then
      (selected ++ (randomSample
          (candidates.filter (fun t => !(selected.contains t)))
          (min (stocksPerPortfolio - selected.length)
            (candidates.filter (fun t => !(selected.contains t))).length)
          s3.2).1,
       (randomSample (candidates.filter (fun t => !(selected.contains t)))
          (min (stocksPerPortfolio - selected.length)
            (candidates.filter (fun t => !(selected.contains t))).length)
          s3.2).2)
    else (selected, s3.2)
  ((randomShuffle afterFill.1 afterFill.2).1.take stocksPerPortfolio,
   (randomShuffle afterFill.1 afterFill.2).2)

/-- The generation loop of `generate_portfolios` lines 279–281, threading
the random state through the batch. -/
def generatePortfoliosAux (data : List (String × TickerData))
    (criteria : List Criterion) (stocksPer : ℕ) :
    ℕ → List String → Rng → List (List String)
  | 0, _, _ => []
  | n + 1, valid, r =>
      (createPortfolio data criteria valid stocksPer r).1 ::
        generatePortfoliosAux data criteria stocksPer n valid
          (createPortfolio data criteria valid stocksPer r).2

/-- `PortfolioGenerator.generate_portfolios` (generator.py lines 240–285):
min-yield filter, the (pre-criteria) size check, the criteria filters, then
`num_portfolios` calls of `_create_portfolio`. -/
def generatePortfolios (data : List (String × TickerData))
    (criteria : List Criterion) (numPortfolios stocksPerPortfolio : ℕ)
    (minYield : Option ℚ) (r : Rng) : List (List String) :=
  if data.isEmpty then []
  else
    if (match minYield with
        | none => data.map Prod.fst
        | some my => (data.map Prod.fst).filter (fun t =>
            match (tickerLookup data t).dividend_yield with
            | none => false
            | some dy => my ≤ dy)).length < stocksPerPortfolio then []
    else
      generatePortfoliosAux data criteria stocksPerPortfolio numPortfolios
        (criteria.foldl (fun vt c =>
          match c.filterF with
          | none => vt
          | some f => vt.filter (fun t => f (tickerLookup data t)))
          (match minYield with
           | none => data.map Prod.fst
           | some my => (data.map Prod.fst).filter (fun t =>
               match (tickerLookup data t).dividend_yield with
               | none => false
               | some dy => my ≤ dy)))
        r

/-- A six-ticker snapshot used by the seed-sensitivity instance. -/
def sixTickers : List (String × TickerData) :=
  [("A", ⟨none, none, none⟩), ("B", ⟨none, none, none⟩),
   ("C", ⟨none, none, none⟩), ("D", ⟨none, none, none⟩),
   ("E", ⟨none, none, none⟩), ("F", ⟨none, none, none⟩)]

/-- C8: for a fixed ticker-data snapshot and criteria configuration, the
generator is a pure function of the random seed — two runs from the same
seed produce identical lists of baskets (same tickers, same order, same
count) — while different seeds can produce different baskets, witnessed at
seeds 0 and 1 on a six-ticker snapshot. -/
theorem generator_seed_determinism :
    (∀ (data : List (String × TickerData)) (criteria : List Criterion)
        (n k : ℕ) (my : Option ℚ) (seed : ℕ),
      generatePortfolios data criteria n k my (seedRng seed)
        = generatePortfolios data criteria n k my (seedRng seed)) ∧
    generatePortfolios sixTickers [] 1 2 none (seedRng 0)
      ≠ generatePortfolios sixTickers [] 1 2 none (seedRng 1) :=
  ⟨fun _ _ _ _ _ _ => rfl, by decide⟩

/-- Modelled from the spec: the per-ticker fundamental snapshot consumed by
the sector-capped generator of §4.3 (the `TickerConfig`-based
`generate_portfolios`), which is referenced by evalutor.py but absent from
the source tree. -/
structure SpecTicker where
  ticker : String
  sector : String
  dividend_yield : Option ℚ
  eps : Option ℚ
  pe_ratio : Option ℚ
  beta : Option ℚ
  market_cap : Option ℚ
  price : Option ℚ
  eps_growth : Option ℚ
  roe : Option ℚ
  change52w : Option ℚ
deriving DecidableEq, Repr

/-- Modelled from the spec: the `TickerConfig` of §4.3 (its instantiation
appears in evalutor.py lines 123–134). -/
structure SpecConfig where
  min_dividend_yield : Option ℚ
  max_dividend_yield : Option ℚ
  min_pe_ratio : Option ℚ
  max_pe_ratio : Option ℚ
  min_price : Option ℚ
  max_price : Option ℚ
  min_beta : Option ℚ
  max_beta : Option ℚ
  sectors : List String
  num_stocks : ℕ
  max_stocks_per_sector : ℕ
  min_eps_growth : Option ℚ
  min_roe : Option ℚ
deriving DecidableEq, Repr

/-- An inclusive range test against optional bounds. -/
def inRange (v : ℚ) (lo hi : Option ℚ) : Bool :=
  (match lo with | none => true | some l => l ≤ v) &&
  (match hi with | none => true | some h => v ≤ h)

/-- Modelled from the spec: §4.3 step 1 — drop rows missing the required
fundamentals (`dividend_yield`, `eps`, `pe_ratio`, `beta`, `market_cap`),
apply each configured inclusive bound and the sector allow-set. -/
def passesFilter (cfg : SpecConfig) (t : SpecTicker) : Bool :=
  t.dividend_yield.isSome && t.eps.isSome && t.pe_ratio.isSome &&
  t.beta.isSome && t.market_cap.isSome &&
  inRange (t.dividend_yield.getD 0) cfg.min_dividend_yield
    cfg.max_dividend_yield &&
  inRange (t.pe_ratio.getD 0) cfg.min_pe_ratio cfg.max_pe_ratio &&
  (match t.price with
   | none => true
   | some p => inRange p cfg.min_price cfg.max_price) &&
  inRange (t.beta.getD 0) cfg.min_beta cfg.max_beta &&
  cfg.sectors.contains t.sector &&
  (match t.eps_growth, cfg.min_eps_growth with
   | some g, some m => m ≤ g
   | _, _ => true) &&
  (match t.roe, cfg.min_roe with
   | some v, some m => m ≤ v
   | _, _ => true)

/-- The values a metric takes over the filtered set. -/
def metricVals (pool : List SpecTicker) (f : SpecTicker → Option ℚ) :
    List ℚ :=
  pool.filterMap f

/-- Modelled from the spec: the per-metric normalisation
`(value − min)/(max − min)` over the filtered set (degenerate when all
values coincide). -/
def normScore (vals : List ℚ) (v : ℚ) : ℚ :=
  match vals with
  | [] => 0
  | x :: xs =>
      if xs.foldl max x = xs.foldl min x then 0
      else (v - xs.foldl min x) / (xs.foldl max x - xs.foldl min x)

/-- Modelled from the spec: §4.3 step 2 — equal weights over whichever of
{dividend yield, eps, inverted P/E, eps growth, roe, 52-week change} are
present, re-normalised by the number of available metrics. -/
def scoreSpec (pool : List SpecTicker) (t : SpecTicker) : ℚ :=
  ([t.dividend_yield.map (normScore (metricVals pool
      (fun u => u.dividend_yield))),
    t.eps.map (normScore (metricVals pool (fun u => u.eps))),
    t.pe_ratio.map (fun pe =>
      normScore ((metricVals pool (fun u => u.pe_ratio)).map
        (fun x => 1/x)) (1/pe)),
    t.eps_growth.map (normScore (metricVals pool (fun u => u.eps_growth))),
    t.roe.map (normScore (metricVals pool (fun u => u.roe))),
    t.change52w.map (normScore (metricVals pool (fun u => u.change52w)))
   ].filterMap id).sum /
  (([t.dividend_yield.map (normScore (metricVals pool
      (fun u => u.dividend_yield))),
    t.eps.map (normScore (metricVals pool (fun u => u.eps))),
    t.pe_ratio.map (fun pe =>
      normScore ((metricVals pool (fun u => u.pe_ratio)).map
        (fun x => 1/x)) (1/pe)),
    t.eps_growth.map (normScore (metricVals pool (fun u => u.eps_growth))),
    t.roe.map (normScore (metricVals pool (fun u => u.roe))),
    t.change52w.map (normScore (metricVals pool (fun u => u.change52w)))
   ].filterMap id).length : ℚ)

/-- The filtered pool annotated with its scores. -/
def scoredPool (pool : List SpecTicker) : List (SpecTicker × ℚ) :=
  pool.map (fun t => (t, scoreSpec pool t))

/-- The distinct sectors of the filtered pool, in first-appearance order. -/
def sectorsOf (scored : List (SpecTicker × ℚ)) : List String :=
  scored.foldl (fun acc p =>
    if acc.contains p.1.sector then acc else acc ++ [p.1.sector]) []

/-- Modelled from the spec: the top-5 scored candidates of one sector. -/
def topFive (scored : List (SpecTicker × ℚ)) (sector : String) :
    List String :=
  ((sortDescBy Prod.snd
      (scored.filter (fun p => p.1.sector == sector))).take 5).map
    (fun p => p.1.ticker)

/-- Modelled from the spec: §4.3 step 3 — for each sector (in shuffled
order), take up to `max_stocks_per_sector` of its top-5 at random,
excluding tickers already used in other baskets of the batch, stopping at
`num_stocks`. -/
def sectorLoop (scored : List (SpecTicker × ℚ)) (cfg : SpecConfig)
    (used : List String) :
    List String → List String → Rng → List String × Rng
  | [], basket, r => (basket, r)
  | sector :: rest, basket, r =>
      if cfg.num_stocks ≤ basket.length then (basket, r)
      else
        ((fun s => sectorLoop scored cfg used rest (basket ++ s.1) s.2)
          (randomSample
            ((topFive scored sector).filter
              (fun t => !(used.contains t) && !(basket.contains t)))
            (min cfg.max_stocks_per_sector
              (min (cfg.num_stocks - basket.length)
                ((topFive scored sector).filter
                  (fun t => !(used.contains t) && !(basket.contains t))).length))
            r))

/-- Modelled from the spec: §4.3 step 4 — one fill phase sampling uniformly
from candidates outside the basket and outside `excl` (the second phase
relaxes `excl` to nothing). -/
def fillStep (scored : List (SpecTicker × ℚ)) (cfg : SpecConfig)
    (excl : List String) (basket : List String) (r : Rng) :
    List String × Rng :=
  if basket.length < cfg.num_stocks then
    ((fun s => (basket ++ s.1, s.2))
      (randomSample
        ((scored.map (fun p => p.1.ticker)).filter
          (fun t => !(basket.contains t) && !(excl.contains t)))
        (min (cfg.num_stocks - basket.length)
          ((scored.map (fun p => p.1.ticker)).filter
            (fun t => !(basket.contains t) && !(excl.contains t))).length)
        r))
  else (basket, r)

/-- The beta recorded for a basket member. -/
def betaOfT (scored : List (SpecTicker × ℚ)) (t : String) : ℚ :=
  (((scored.find? (fun p => p.1.ticker == t)).map
    (fun p => p.1.beta.getD 0)).getD 0)

/-- The market cap recorded for a basket member. -/
def mcapOfT (scored : List (SpecTicker × ℚ)) (t : String) : ℚ :=
  (((scored.find? (fun p => p.1.ticker == t)).map
    (fun p => p.1.market_cap.getD 0)).getD 0)

/-- Modelled from the spec: the market-cap-weighted basket beta. -/
def basketBeta (scored : List (SpecTicker × ℚ)) (basket : List String) : ℚ :=
  if (basket.map (mcapOfT scored)).sum = 0 then 0
  else (basket.map (fun t => mcapOfT scored t * betaOfT scored t)).sum
    / (basket.map (mcapOfT scored)).sum

/-- The first element attaining the maximal value of `f`. -/
def argmaxBy {α : Type} (f : α → ℚ) : List α → Option α
  | [] => none
  | x :: xs =>
      match argmaxBy f xs with
      | none => some x
      | some y => if f y ≤ f x then some x else some y

/-- The first element attaining the minimal value of `f`. -/
def argminBy {α : Type} (f : α → ℚ) : List α → Option α
  | [] => none
  | x :: xs =>
      match argminBy f xs with
      | none => some x
      | some y => if f x ≤ f y then some x else some y

/-- Modelled from the spec: §4.3 step 5 (first loop) — while the basket
beta exceeds `max_beta` and the basket exceeds `num_stocks`, remove the
highest-beta holding (no bound configured means no trimming). -/
def betaTrim (scored : List (SpecTicker × ℚ)) (cfg : SpecConfig) :
    ℕ → List String → List String
  | 0, b => b
  | fuel + 1, b =>
      match cfg.max_beta with
      | none => b
      | some mb =>
          if cfg.num_stocks < b.length ∧ mb < basketBeta scored b then
            match argmaxBy (betaOfT scored) b with
            | none => b
            | some t => betaTrim scored cfg fuel (b.erase t)
          else b

/-- Modelled from the spec: §4.3 step 5 (second loop) — while the basket is
below `num_stocks` and spare candidates exist, add the lowest-beta one. -/
def betaFill (scored : List (SpecTicker × ℚ)) (cfg : SpecConfig) :
    ℕ → List String → List String
  | 0, b => b
  | fuel + 1, b =>
      if b.length < cfg.num_stocks then
        match argminBy (betaOfT scored)
            ((scored.map (fun p => p.1.ticker)).filter
              (fun t => !(b.contains t))) with
        | none => b
        | some t => betaFill scored cfg fuel (b ++ [t])
      else b

/-- Modelled from the spec: one basket attempt — sector-capped sampling,
strict then relaxed fill, and beta adjustment. -/
def specAttempt (scored : List (SpecTicker × ℚ)) (cfg : SpecConfig)
    (used : List String) (r : Rng) : List String × Rng :=
  ((fun p3 =>
    ((fun p4 =>
      ((fun p5 =>
          (betaFill scored cfg scored.length
            (betaTrim scored cfg scored.length p5.1), p5.2))
        (fillStep scored cfg [] p4.1 p4.2)))
      (fillStep scored cfg used p3.1 p3.2)))
    ((fun sh => sectorLoop scored cfg used sh.1 [] sh.2)
      (randomShuffle (sectorsOf scored) r)))

/-- Two baskets holding the same ticker set. -/
def sameSet (a b : List String) : Bool :=
  a.all (fun t => b.contains t) && b.all (fun t => a.contains t)

/-- Modelled from the spec: §4.3 step 6 — up to `3 × n` attempts; discard a
basket duplicating an accepted ticker set or below `num_stocks` (flagging
the size deficiency); stop once `n` baskets are accepted. -/
def specBatch (scored : List (SpecTicker × ℚ)) (cfg : SpecConfig) (n : ℕ) :
    ℕ → List (List String) → Bool → Rng → List (List String) × Bool
  | 0, acc, defic, _ => (acc.reverse, defic)
  | att + 1, acc, defic, r =>
      if n ≤ acc.length then (acc.reverse, defic)
      else
        ((fun b =>
          specBatch scored cfg n att
            (if b.1.length < cfg.num_stocks ∨ acc.any (sameSet b.1) then acc
             else b.1 :: acc)
            (defic || decide (b.1.length < cfg.num_stocks)) b.2)
          (specAttempt scored cfg (acc.flatten) r))

/-- Modelled from the spec: the sector-capped generator
`generate(n_portfolios, config)` of §4.3 — filter, score, then the
attempt/retry batch; the second component reports whether any attempt ended
below the target size. -/
def specGenerate (rawPool : List SpecTicker) (cfg : SpecConfig) (n : ℕ)
    (r : Rng) : List (List String) × Bool :=
  specBatch (scoredPool (rawPool.filter (passesFilter cfg))) cfg n (3 * n)
    [] false r

/-- The sector a basket ticker belongs to. -/
def sectorOfT (pool : List SpecTicker) (t : String) : Option String :=
  (pool.find? (fun u => u.ticker == t)).map (fun u => u.sector)


theorem sampleAux_length_le {α : Type} [DecidableEq α] (k : ℕ) :
    ∀ (pool : List α) (r : Rng), (sampleAux k pool r).1.length ≤ k := by
  induction k with
  | zero => intro pool r; simp [sampleAux]
  | succ k ih =>
      intro pool r
      match pool with
      | [] => simp [sampleAux]
      | y :: ys =>
          rw [sampleAux]
          rcases hg : (y :: ys).get? ((r.next).1 % (y :: ys).length) with _ | x
          · simp
          · simpa using ih ((y :: ys).erase x) (r.next).2

theorem sampleAux_nodup_mem {α : Type} [DecidableEq α] (k : ℕ) :
    ∀ (pool : List α) (r : Rng), pool.Nodup →
      (sampleAux k pool r).1.Nodup ∧
      ∀ x ∈ (sampleAux k pool r).1, x ∈ pool := by
  induction k with
  | zero => intro pool r _; simp [sampleAux]
  | succ k ih =>
      intro pool r h
      match pool with
      | [] => simp [sampleAux]
      | y :: ys =>
          rw [sampleAux]
          rcases hg : (y :: ys).get? ((r.next).1 % (y :: ys).length) with _ | x
          · simp
          · have hx : x ∈ y :: ys := List.get?_mem hg
            have herased := ih ((y :: ys).erase x) (r.next).2 (h.erase x)
            constructor
            · refine List.Nodup.cons ?_ herased.1
              intro hmem
              have := herased.2 x hmem
              exact (h.mem_erase_iff.mp this).1 rfl
            · intro z hz
              rcases hz with _ | hz
              · exact hx
              · exact List.mem_of_mem_erase (herased.2 _ (by assumption))

theorem insertDescBy_perm {α : Type} (score : α → ℚ) (x : α) (l : List α) :
    List.Perm (insertDescBy score x l) (x :: l) := by
  induction l with
  | nil => exact List.Perm.refl _
  | cons y ys ih =>
      rw [insertDescBy]
      split_ifs
      · exact List.Perm.refl _
      · exact (ih.cons y).trans (List.Perm.swap x y ys)

theorem sortDescBy_perm {α : Type} (score : α → ℚ) (l : List α) :
    List.Perm (sortDescBy score l) l := by
  induction l with
  | nil => exact List.Perm.refl _
  | cons x xs ih =>
      rw [sortDescBy]
      exact (insertDescBy_perm score x _).trans (ih.cons x)

theorem argminBy_mem {α : Type} (f : α → ℚ) :
    ∀ (l : List α) (t : α), argminBy f l = some t → t ∈ l := by
  intro l
  induction l with
  | nil => intro t h; cases h
  | cons x xs ih =>
      intro t h
      rw [argminBy] at h
      rcases hm : argminBy f xs with _ | y
      · rw [hm] at h
        cases h
        exact List.mem_cons_self x xs
      · rw [hm] at h
        simp only at h
        split_ifs at h
        · cases h; exact List.mem_cons_self x xs
        · cases h; exact List.mem_cons_of_mem x (ih _ hm)

theorem topFive_nodup (scored : List (SpecTicker × ℚ)) (sector : String)
    (htick : (scored.map (fun p => p.1.ticker)).Nodup) :
    (topFive scored sector).Nodup := by
  unfold topFive
  have hfil : (((scored.filter (fun p => p.1.sector == sector)).map
      (fun p => p.1.ticker))).Sublist (scored.map (fun p => p.1.ticker)) :=
    (List.filter_sublist _).map _
  have hnodfil := htick.sublist hfil
  have hperm : List.Perm
      ((sortDescBy Prod.snd (scored.filter
        (fun p => p.1.sector == sector))).map (fun p => p.1.ticker))
      ((scored.filter (fun p => p.1.sector == sector)).map
        (fun p => p.1.ticker)) :=
    (sortDescBy_perm Prod.snd _).map _
  have hnodsort := (hperm.nodup_iff).mpr hnodfil
  exact hnodsort.sublist ((List.take_sublist _ _).map _)


theorem sectorLoop_inv (scored : List (SpecTicker × ℚ)) (cfg : SpecConfig)
    (used : List String)
    (htick : (scored.map (fun p => p.1.ticker)).Nodup) :
    ∀ (sectors basket : List String) (r : Rng),
      basket.Nodup → basket.length ≤ cfg.num_stocks →
      (sectorLoop scored cfg used sectors basket r).1.Nodup ∧
      (sectorLoop scored cfg used sectors basket r).1.length
        ≤ cfg.num_stocks := by
  intro sectors
  induction sectors with
  | nil =>
      intro basket r hb hl
      rw [sectorLoop]
      exact ⟨hb, hl⟩
  | cons sector rest ih =>
      intro basket r hb hl
      rw [sectorLoop]
      split_ifs with hns
      · exact ⟨hb, hl⟩
      · simp only [randomSample]
        have hcnodup : ((topFive scored sector).filter
            (fun t => !(used.contains t) && !(basket.contains t))).Nodup :=
          (topFive_nodup scored sector htick).filter _
        have hs := sampleAux_nodup_mem
          (min cfg.max_stocks_per_sector
            (min (cfg.num_stocks - basket.length)
              ((topFive scored sector).filter
                (fun t => !(used.contains t) && !(basket.contains t))).length))
          _ r hcnodup
        have hdisj : ∀ x ∈ (sampleAux
            (min cfg.max_stocks_per_sector
              (min (cfg.num_stocks - basket.length)
                ((topFive scored sector).filter
                  (fun t => !(used.contains t) && !(basket.contains t))).length))
            ((topFive scored sector).filter
              (fun t => !(used.contains t) && !(basket.contains t)))
            r).1, x ∉ basket := by
          intro x hx
          have hxc := hs.2 x hx
          rw [List.mem_filter] at hxc
          simp only [Bool.and_eq_true, Bool.not_eq_true'] at hxc
          intro hmem
          have := hxc.2.2
          simp [hmem] at this
        have hlen := sampleAux_length_le
          (min cfg.max_stocks_per_sector
            (min (cfg.num_stocks - basket.length)
              ((topFive scored sector).filter
                (fun t => !(used.contains t) && !(basket.contains t))).length))
          ((topFive scored sector).filter
            (fun t => !(used.contains t) && !(basket.contains t))) r
        apply ih
        · exact hb.append hs.1 (fun a ha hb2 => hdisj a hb2 ha)
        · rw [List.length_append]
          have hk : min cfg.max_stocks_per_sector
              (min (cfg.num_stocks - basket.length)
                ((topFive scored sector).filter
                  (fun t => !(used.contains t) && !(basket.contains t))).length)
              ≤ cfg.num_stocks - basket.length :=
            le_trans (min_le_right _ _) (min_le_left _ _)
          omega


theorem fillStep_inv (scored : List (SpecTicker × ℚ)) (cfg : SpecConfig)
    (excl basket : List String) (r : Rng)
    (htick : (scored.map (fun p => p.1.ticker)).Nodup)
    (hb : basket.Nodup) (hl : basket.length ≤ cfg.num_stocks) :
    (fillStep scored cfg excl basket r).1.Nodup ∧
    (fillStep scored cfg excl basket r).1.length ≤ cfg.num_stocks := by
  rw [fillStep]
  split_ifs with hlt
  · simp only [randomSample]
    have hcnodup : ((scored.map (fun p => p.1.ticker)).filter
        (fun t => !(basket.contains t) && !(excl.contains t))).Nodup :=
      htick.filter _
    have hs := sampleAux_nodup_mem
      (min (cfg.num_stocks - basket.length)
        ((scored.map (fun p => p.1.ticker)).filter
          (fun t => !(basket.contains t) && !(excl.contains t))).length)
      _ r hcnodup
    have hlen := sampleAux_length_le
      (min (cfg.num_stocks - basket.length)
        ((scored.map (fun p => p.1.ticker)).filter
          (fun t => !(basket.contains t) && !(excl.contains t))).length)
      ((scored.map (fun p => p.1.ticker)).filter
        (fun t => !(basket.contains t) && !(excl.contains t))) r
    constructor
    · refine hb.append hs.1 ?_
      intro a ha hb2
      have hxc := hs.2 a hb2
      rw [List.mem_filter] at hxc
      simp only [Bool.and_eq_true, Bool.not_eq_true'] at hxc
      have := hxc.2.1
      simp [ha] at this
    · rw [List.length_append]
      have hk : min (cfg.num_stocks - basket.length)
          ((scored.map (fun p => p.1.ticker)).filter
            (fun t => !(basket.contains t) && !(excl.contains t))).length
          ≤ cfg.num_stocks - basket.length := min_le_left _ _
      omega
  · exact ⟨hb, hl⟩

theorem betaTrim_inv (scored : List (SpecTicker × ℚ)) (cfg : SpecConfig) :
    ∀ (fuel : ℕ) (b : List String), b.Nodup → b.length ≤ cfg.num_stocks →
      (betaTrim scored cfg fuel b).Nodup ∧
      (betaTrim scored cfg fuel b).length ≤ cfg.num_stocks := by
  intro fuel
  induction fuel with
  | zero => intro b hb hl; rw [betaTrim]; exact ⟨hb, hl⟩
  | succ fuel ih =>
      intro b hb hl
      rw [betaTrim]
      rcases cfg.max_beta with _ | mb
      · exact ⟨hb, hl⟩
      · simp only
        split_ifs with hcond
        · rcases hmax : argmaxBy (betaOfT scored) b with _ | t
          · exact ⟨hb, hl⟩
          · refine ih (b.erase t) (hb.erase t) ?_
            calc (b.erase t).length ≤ b.length := List.length_erase_le _ _
              _ ≤ cfg.num_stocks := hl
        · exact ⟨hb, hl⟩

theorem betaFill_inv (scored : List (SpecTicker × ℚ)) (cfg : SpecConfig) :
    ∀ (fuel : ℕ) (b : List String), b.Nodup → b.length ≤ cfg.num_stocks →
      (betaFill scored cfg fuel b).Nodup ∧
      (betaFill scored cfg fuel b).length ≤ cfg.num_stocks := by
  intro fuel
  induction fuel with
  | zero => intro b hb hl; rw [betaFill]; exact ⟨hb, hl⟩
  | succ fuel ih =>
      intro b hb hl
      rw [betaFill]
      split_ifs with hlt
      · rcases hmin : argminBy (betaOfT scored)
            ((scored.map (fun p => p.1.ticker)).filter
              (fun t => !(b.contains t))) with _ | t
        · try rw [hmin]
          exact ⟨hb, hl⟩
        · try rw [hmin]
          have hmem := argminBy_mem _ _ _ hmin
          rw [List.mem_filter] at hmem
          simp only [Bool.not_eq_true'] at hmem
          refine ih (b ++ [t]) ?_ ?_
          · refine hb.append (List.nodup_singleton t) ?_
            intro a ha hat
            rw [List.mem_singleton] at hat
            subst hat
            have := hmem.2
            simp [ha] at this
          · rw [List.length_append]
            simp only [List.length_singleton]
            omega
      · exact ⟨hb, hl⟩

theorem specAttempt_inv (scored : List (SpecTicker × ℚ)) (cfg : SpecConfig)
    (used : List String) (r : Rng)
    (htick : (scored.map (fun p => p.1.ticker)).Nodup) :
    (specAttempt scored cfg used r).1.Nodup ∧
    (specAttempt scored cfg used r).1.length ≤ cfg.num_stocks := by
  rw [specAttempt]
  simp only
  have h3 := sectorLoop_inv scored cfg used htick
    (randomShuffle (sectorsOf scored) r).1 []
    (randomShuffle (sectorsOf scored) r).2 List.nodup_nil (by simp)
  have h4 := fillStep_inv scored cfg used
    (sectorLoop scored cfg used (randomShuffle (sectorsOf scored) r).1 []
      (randomShuffle (sectorsOf scored) r).2).1
    (sectorLoop scored cfg used (randomShuffle (sectorsOf scored) r).1 []
      (randomShuffle (sectorsOf scored) r).2).2
    htick h3.1 h3.2
  have h5 := fillStep_inv scored cfg []
    (fillStep scored cfg used
      (sectorLoop scored cfg used (randomShuffle (sectorsOf scored) r).1 []
        (randomShuffle (sectorsOf scored) r).2).1
      (sectorLoop scored cfg used (randomShuffle (sectorsOf scored) r).1 []
        (randomShuffle (sectorsOf scored) r).2).2).1
    (fillStep scored cfg used
      (sectorLoop scored cfg used (randomShuffle (sectorsOf scored) r).1 []
        (randomShuffle (sectorsOf scored) r).2).1
      (sectorLoop scored cfg used (randomShuffle (sectorsOf scored) r).1 []
        (randomShuffle (sectorsOf scored) r).2).2).2
    htick h4.1 h4.2
  have h6 := betaTrim_inv scored cfg scored.length
    (fillStep scored cfg []
      (fillStep scored cfg used
        (sectorLoop scored cfg used (randomShuffle (sectorsOf scored) r).1 []
          (randomShuffle (sectorsOf scored) r).2).1
        (sectorLoop scored cfg used (randomShuffle (sectorsOf scored) r).1 []
          (randomShuffle (sectorsOf scored) r).2).2).1
      (fillStep scored cfg used
        (sectorLoop scored cfg used (randomShuffle (sectorsOf scored) r).1 []
          (randomShuffle (sectorsOf scored) r).2).1
        (sectorLoop scored cfg used (randomShuffle (sectorsOf scored) r).1 []
          (randomShuffle (sectorsOf scored) r).2).2).2).1
    h5.1 h5.2
  exact betaFill_inv scored cfg scored.length _ h6.1 h6.2

theorem specBatch_inv (scored : List (SpecTicker × ℚ)) (cfg : SpecConfig)
    (n : ℕ) (htick : (scored.map (fun p => p.1.ticker)).Nodup) :
    ∀ (att : ℕ) (acc : List (List String)) (defic : Bool) (r : Rng),
      (∀ b ∈ acc, b.length = cfg.num_stocks ∧ b.Nodup) →
      ∀ b ∈ (specBatch scored cfg n att acc defic r).1,
        b.length = cfg.num_stocks ∧ b.Nodup := by
  intro att
  induction att with
  | zero =>
      intro acc defic r hacc b hb
      rw [specBatch] at hb
      simp only [List.mem_reverse] at hb
      exact hacc b hb
  | succ att ih =>
      intro acc defic r hacc b hb
      rw [specBatch] at hb
      split_ifs at hb with hn
      · simp only [List.mem_reverse] at hb
        exact hacc b hb
      · simp only at hb
        refine ih _ _ _ ?_ b hb
        split_ifs with hkeep
        · exact hacc
        · intro c hc
          rcases hc with _ | hc
          · push_neg at hkeep
            have hatt := specAttempt_inv scored cfg (acc.flatten) r htick
            exact ⟨by omega, hatt.1⟩
          · exact hacc c (by assumption)


/-- A candidate with all required fundamentals present and identical
metric values (so every normalised score degenerates to zero). -/
def mkT (tk sec : String) : SpecTicker :=
  ⟨tk, sec, some 5, some 3, some 10, some 1, some 100, none, none, none,
   none⟩

/-- Five sectors: four with a single candidate and one with five. -/
def c7Pool : List SpecTicker :=
  [mkT "A1" "S1", mkT "B1" "S2", mkT "C1" "S3", mkT "D1" "S4",
   mkT "E1" "S5", mkT "E2" "S5", mkT "E3" "S5", mkT "E4" "S5",
   mkT "E5" "S5"]

/-- The claim's configuration: 8 stocks, at most 2 per sector, no other
bounds. -/
def c7Cfg : SpecConfig :=
  ⟨none, none, none, none, none, none, none, none,
   ["S1", "S2", "S3", "S4", "S5"], 8, 2, none, none⟩

/-- Every candidate of the pool scores 0 (all metric values coincide). -/
theorem c7_scored_eval :
    scoredPool (c7Pool.filter (passesFilter c7Cfg)) =
      [(mkT "A1" "S1", 0), (mkT "B1" "S2", 0), (mkT "C1" "S3", 0),
       (mkT "D1" "S4", 0), (mkT "E1" "S5", 0), (mkT "E2" "S5", 0),
       (mkT "E3" "S5", 0), (mkT "E4" "S5", 0), (mkT "E5" "S5", 0)] := by
  norm_num [scoredPool, scoreSpec, metricVals, normScore, c7Pool, c7Cfg,
    passesFilter, inRange, mkT, min_def, max_def, List.filterMap_cons,
    List.filterMap_nil, List.foldl_cons, List.foldl_nil, List.sum_cons,
    List.sum_nil, Option.map_some', Option.map_none', List.filter_cons,
    List.filter_nil]

/-- The concrete generation run at seed 0. -/
theorem c7_run_eval :
    specGenerate c7Pool c7Cfg 1 (seedRng 0)
      = ([["D1", "C1", "A1", "B1", "E2", "E3", "E1", "E5"]], false) := by
  unfold specGenerate
  rw [c7_scored_eval]
  decide

/-- C7 counterexample: with `num_stocks = 8`, `max_stocks_per_sector = 2`
and five available sectors, the run at seed 0 returns a basket of 8 unique
tickers *four* of which come from sector S5 — the fill-to-size step samples
from all unused candidates without re-checking the sector cap — and no
size deficiency is reported (the flag is false). -/
theorem spec_generator_sector_cap_violated :
    (specGenerate c7Pool c7Cfg 1 (seedRng 0)).2 = false ∧
    (specGenerate c7Pool c7Cfg 1 (seedRng 0)).1
      = [["D1", "C1", "A1", "B1", "E2", "E3", "E1", "E5"]] ∧
    (["D1", "C1", "A1", "B1", "E2", "E3", "E1", "E5"] : List String).length
      = 8 ∧
    (["D1", "C1", "A1", "B1", "E2", "E3", "E1", "E5"] :
      List String).Nodup ∧
    2 < ((["D1", "C1", "A1", "B1", "E2", "E3", "E1", "E5"] :
      List String).filter
        (fun t => sectorOfT c7Pool t == some "S5")).length ∧
    4 ≤ (sectorsOf (scoredPool
      (c7Pool.filter (passesFilter c7Cfg)))).length := by
  refine ⟨by rw [c7_run_eval], by rw [c7_run_eval], by decide, by decide,
    by decide, ?_⟩
  rw [c7_scored_eval]
  decide

/-- C7 as amended: whenever the filtered pool has duplicate-free tickers,
every basket the generator returns consists of exactly `num_stocks` unique
tickers (undersized attempts are discarded and flagged, never returned);
the per-sector cap, however, binds only the sector-sampling step — the
fill step may place more than `max_stocks_per_sector` tickers of one
sector into a full-size basket (see the counterexample). -/
theorem spec_generator_baskets_full_and_unique (rawPool : List SpecTicker)
    (cfg : SpecConfig) (n : ℕ) (r : Rng)
    (htick : ((rawPool.filter (passesFilter cfg)).map
      (fun t => t.ticker)).Nodup) :
    ∀ b ∈ (specGenerate rawPool cfg n r).1,
      b.length = cfg.num_stocks ∧ b.Nodup := by
  intro b hb
  have htick' : ((scoredPool (rawPool.filter (passesFilter cfg))).map
      (fun p => p.1.ticker)).Nodup := by
    rw [scoredPool, List.map_map]
    exact htick
  exact specBatch_inv _ cfg n htick' (3 * n) [] false r (by simp) b hb

/-- Witness for `spec_generator_baskets_full_and_unique` at the seed-0
run. -/
theorem spec_generator_baskets_full_and_unique_witness :
    (["D1", "C1", "A1", "B1", "E2", "E3", "E1", "E5"] : List String).length
        = c7Cfg.num_stocks ∧
    (["D1", "C1", "A1", "B1", "E2", "E3", "E1", "E5"] :
      List String).Nodup :=
  spec_generator_baskets_full_and_unique c7Pool c7Cfg 1 (seedRng 0)
    (by decide) ["D1", "C1", "A1", "B1", "E2", "E3", "E1", "E5"]
    (by
      rw [show (specGenerate c7Pool c7Cfg 1 (seedRng 0)).1
          = [["D1", "C1", "A1", "B1", "E2", "E3", "E1", "E5"]] from
        by rw [c7_run_eval]]
      exact List.mem_singleton_self _)

end NovusEdge
